import Mathlib

/-!
Shallow embedding of `calcAttenuation.py`: a calculator for optimal attenuator
placement on a cryogenic microwave line.  Floating-point numbers of the source
are modelled as exact real numbers; numpy arrays and Python lists as `List ℝ`.
Line numbers in the comments refer to `src/calcAttenuation.py`.
-/

namespace CalcAttenuation

/-! ## Unit conversions (lines 149-155) -/

/-- Source line 150-151: `dBmtoWatt(dbm) = power(10, dbm/10.)*1e-3`. -/
noncomputable def dBmtoWatt (dbm : ℝ) : ℝ := (10 : ℝ) ^ (dbm / 10) * 1e-3

/-- Source line 152-153: `GtodB(G) = log10(G)*10.0`. -/
noncomputable def GtodB (G : ℝ) : ℝ := Real.logb 10 G * 10

/-- Source line 154-155: `dBtoG(dB) = 10.**(dB/10.0)`. -/
noncomputable def dBtoG (dB : ℝ) : ℝ := (10 : ℝ) ^ (dB / 10)

/-! ## Chain configuration (lines 55-78) -/

/-- One entry of `options['Ts']`: a dict with a `type` key that is `'stage'`
(with temperature `T` and cooling power `CP`), `'coax'` (with temperature `T`,
`length` in mm and `atten` in dB/mm) or `'RT'` (temperature only).  Every
stage of the shipped configuration carries a `CP` key, so the model gives
stages a cooling power unconditionally. -/
inductive Pos where
  | stage (T CP : ℝ)
  | coax (T length atten : ℝ)
  | rt (T : ℝ)

/-- Temperature of a position, the `'T'` entry of the dict. -/
def Pos.T : Pos → ℝ
  | Pos.stage t _ => t
  | Pos.coax t _ _ => t
  | Pos.rt t => t

/-- Source line 55: `coaxBeCuAtten = -6.33 / 1000.` (dB per mm). -/
noncomputable def coaxBeCuAtten : ℝ := -6.33 / 1000

/-- The `options` dict, lines 58-78. -/
structure Options where
  DUT_power_max : ℝ
  source_power : ℝ
  attenuation_max : ℝ
  Ts : List Pos
  Gs : List ℝ

/-- Source lines 58-78: the shipped configuration.  `Gs` is
`append(-arange(0,10,0.5), [-10.,-11,...,-20.,-25,-30.,-40.])` written out. -/
noncomputable def options : Options where
  DUT_power_max := -37
  source_power := 24
  attenuation_max := 55
  Ts := [ Pos.stage 22e-3 3e-6,
          Pos.stage 0.09 1e-5,
          Pos.stage 0.8 3e-3,
          Pos.coax 2.0 123 coaxBeCuAtten,
          Pos.stage 3.2 1e-1,
          Pos.coax 24.6 213 coaxBeCuAtten,
          Pos.stage 46.0 10,
          Pos.coax 173 147 coaxBeCuAtten,
          Pos.rt 300 ]
  Gs := [0, -0.5, -1, -1.5, -2, -2.5, -3, -3.5, -4, -4.5,
         -5, -5.5, -6, -6.5, -7, -7.5, -8, -8.5, -9, -9.5,
         -10, -11, -12, -13, -14, -15, -16, -17, -18, -19,
         -20, -25, -30, -40]

/-- Source lines 86-91: `CPs` collects `x['CP']` for stages and the
placeholder `1.` for every other position. -/
noncomputable def CPs_build : List Pos → List ℝ
  | [] => []
  | Pos.stage _ cp :: r => cp :: CPs_build r
  | _ :: r => 1 :: CPs_build r

/-- Source line 86-91 applied to the shipped configuration. -/
noncomputable def CPs : List ℝ := CPs_build options.Ts

/-- Source line 93: `Ts = [x['T'] for x in options['Ts']]`. -/
noncomputable def Ts_build (cfg : List Pos) : List ℝ := cfg.map Pos.T

/-- Source line 93 applied to the shipped configuration. -/
noncomputable def Ts : List ℝ := Ts_build options.Ts

/-! ## Cooling-power related functions (lines 170-176) -/

/-- Source lines 172-173: `mip(cp, g) = cp / (1 - g)`, the maximum input power
of an attenuator before cooling power is exceeded. -/
noncomputable def mip (cp g : ℝ) : ℝ := cp / (1 - g)

/-- Source lines 175-176: `rmp(cp, g) = mip(cp, g) * g`, the maximum output
power of a stage. -/
noncomputable def rmp (cp g : ℝ) : ℝ := mip cp g * g

/-! ## Objective function (lines 158-167) -/

/-- The inner loop of `electronTemperature`, lines 162-164: `G_t = Gs[0]`,
then `for i in range(1, n): G_t *= Gs[i]`. -/
noncomputable def G_t (Gs : List ℝ) (n : ℕ) : ℝ :=
  (List.range' 1 (n - 1)).foldl (fun acc i => acc * Gs.getD i 0) (Gs.getD 0 0)

/-- Source lines 158-167: `Te = Ts[0]`, then for every `n` in
`enumerate(Ts)` the term `Ts[n] * G_t` is added.  Indexing an empty `Gs`
(which raises `IndexError` in Python) is modelled by the `getD` default. -/
noncomputable def electronTemperature (Ts Gs : List ℝ) : ℝ :=
  (List.range Ts.length).foldl (fun Te n => Te + Ts.getD n 0 * G_t Gs n) (Ts.getD 0 0)

/-- Modelled from the spec: the objective of section 4.4 of the spec and of
claim C3 — the DUT-end temperature plus, for every subsequent position `n ≥ 1`,
its temperature weighted by the cumulative transmission `g[0]*...*g[n-1]`.
Kept separate from `electronTemperature` (which embeds the source) so the two
can be compared. -/
noncomputable def electronTemperature_spec (Ts Gs : List ℝ) : ℝ :=
  Ts.getD 0 0 + ((List.range' 1 (Ts.length - 1)).map
    (fun n => Ts.getD n 0 * ((List.range n).map (fun i => Gs.getD i 0)).prod)).sum

/-! ## Constraints (lines 96-145) -/

/-- Minimum of a nonempty list of reals, as Python's builtin `min`; the
value on `[]` (where Python raises) is an arbitrary default. -/
noncomputable def minl : List ℝ → ℝ
  | [] => 0
  | [a] => a
  | a :: b :: r => min a (minl (b :: r))

/-- The body of the second-pass discretization constraint, line 143:
`min(abs(dBtoG(options['Gs']) - g[i]))`. -/
noncomputable def discrMin (x : ℝ) : ℝ := minl (options.Gs.map (fun c => |dBtoG c - x|))

/-- Constraint kind: scipy's `'ineq'` (`fun(g) >= 0`) or `'eq'`
(`fun(g) == 0`). -/
inductive CKind where
  | ineq
  | eq
deriving DecidableEq

/-- The distinct constraint bodies of the source, with their bound `args`
captured as data (scipy passes the `args` tuple by value to the lambda). -/
inductive CFun where
  | dutFloor
  | srcAttain
  | attenCeil
  | interStage (cpNext cpUp : ℝ) (i k : ℕ)
  | coaxPin (atten length : ℝ) (i : ℕ)
  | discr (i : ℕ)

/-- Evaluation of a constraint body at a trial vector `g`.  `reduce(mul, g)`
(which raises on an empty `g`) is modelled by `List.prod`; the two agree on
every nonempty list.
  * `dutFloor` is line 96-97: `rmp(CPs[0], g[0]) - options['DUT_power_max']`;
  * `srcAttain` is line 99-100:
    `dBmtoWatt(options['source_power'])*reduce(mul,g) - options['DUT_power_max']`;
  * `attenCeil` is line 102-103: `GtodB(reduce(mul,g)) + options['attenuation_max']`;
  * `interStage` is line 125 with `args = (x_next['CP'], x['CP'], i, k)`:
    `rmp(args[0], g[args[3]]) - mip(args[1], g[args[2]])`;
  * `coaxPin` is line 132 with `args = (x['atten'], x['length'], i)`:
    `g[args[2]] - dBtoG(args[0]*args[1])`;
  * `discr` is line 143: `min(abs(dBtoG(options['Gs']) - g[i[0]]))`. -/
noncomputable def CFun.eval : CFun → List ℝ → ℝ
  | CFun.dutFloor, g => rmp (CPs.getD 0 0) (g.getD 0 0) - options.DUT_power_max
  | CFun.srcAttain, g => dBmtoWatt options.source_power * g.prod - options.DUT_power_max
  | CFun.attenCeil, g => GtodB g.prod + options.attenuation_max
  | CFun.interStage cpNext cpUp i k, g => rmp cpNext (g.getD k 0) - mip cpUp (g.getD i 0)
  | CFun.coaxPin atten length i, g => g.getD i 0 - dBtoG (atten * length)
  | CFun.discr i, g => discrMin (g.getD i 0)

/-- A constraint dict: a kind tag and a body. -/
structure Constraint where
  kind : CKind
  fn : CFun

/-- Source lines 96-109: the three constraints `const` starts with. -/
def constBase : List Constraint :=
  [⟨CKind.ineq, CFun.dutFloor⟩, ⟨CKind.ineq, CFun.srcAttain⟩, ⟨CKind.ineq, CFun.attenCeil⟩]

/-- The scan of lines 118-128: enumerate `options['Ts'][i+1:]` (the `rest`
argument) and return the offset `j` and cooling power of the first `'stage'`
entry, if any.  Every stage of the model carries a `CP`, so the source's
`'CP' in x_next` test is always true. -/
def findStage : List Pos → ℕ → Option (ℕ × ℝ)
  | [], _ => none
  | Pos.stage _ cp :: _, j => some (j, cp)
  | _ :: r, j => findStage r (j + 1)

/-- Source lines 112-134: the loop that appends, per stage `i`, the
inter-stage power constraint with `k = i + j` (where `j` enumerates
`options['Ts'][i+1:]`), and per coax `i`, the pinning equality. -/
def loopConst : List Pos → ℕ → List Constraint
  | [], _ => []
  | Pos.stage _ cp :: r, i =>
      (match findStage r 0 with
        | some (j, cpNext) => [⟨CKind.ineq, CFun.interStage cpNext cp i (i + j)⟩]
        | none => []) ++ loopConst r (i + 1)
  | Pos.coax _ len a :: r, i => ⟨CKind.eq, CFun.coaxPin a len i⟩ :: loopConst r (i + 1)
  | Pos.rt _ :: r, i => loopConst r (i + 1)

/-- Source lines 96-134: the full first-pass constraint collection `const`. -/
noncomputable def const : List Constraint := constBase ++ loopConst options.Ts 0

/-- Source lines 138-145: the second-pass discretization constraints
`const_ext`, one equality per stage index. -/
def extConst : List Pos → ℕ → List Constraint
  | [], _ => []
  | Pos.stage _ _ :: r, i => ⟨CKind.eq, CFun.discr i⟩ :: extConst r (i + 1)
  | _ :: r, i => extConst r (i + 1)

/-- Source lines 138-145 applied to the shipped configuration. -/
noncomputable def const_ext : List Constraint := extConst options.Ts 0

/-- Indices (into `options['Ts']`, equivalently into `g`) of the stage
positions, as enumerated by the loops of lines 112 and 139. -/
def stage_indices : List Pos → ℕ → List ℕ
  | [], _ => []
  | Pos.stage _ _ :: r, i => i :: stage_indices r (i + 1)
  | _ :: r, i => stage_indices r (i + 1)

/-! ## Initial guess and bounds (lines 178-194) -/

/-- Source lines 179-187: `get_g0` appends `.5` per stage and
`dBtoG(x['atten'] * x['length'])` per coax, skipping `'RT'`. -/
noncomputable def get_g0 : List Pos → List ℝ
  | [] => []
  | Pos.stage _ _ :: r => 0.5 :: get_g0 r
  | Pos.coax _ len a :: r => dBtoG (a * len) :: get_g0 r
  | Pos.rt _ :: r => get_g0 r

/-- Source line 188: `g0 = get_g0()`. -/
noncomputable def g0 : List ℝ := get_g0 options.Ts

/-- Source lines 191-194: one `(1e-6, .9)` bound pair per stage or coax. -/
noncomputable def bnds_build : List Pos → List (ℝ × ℝ)
  | [] => []
  | Pos.stage _ _ :: r => (1e-6, 0.9) :: bnds_build r
  | Pos.coax _ _ _ :: r => (1e-6, 0.9) :: bnds_build r
  | Pos.rt _ :: r => bnds_build r

/-- Source lines 191-194 applied to the shipped configuration. -/
noncomputable def bnds : List (ℝ × ℝ) := bnds_build options.Ts

/-! ## Report quantities (lines 204-211) -/

/-- Source line 205: `atten = GtodB(res.x)`, numpy's elementwise map. -/
noncomputable def atten_report (x : List ℝ) : List ℝ := x.map GtodB

/-- Source line 208: the figure printed as
`'Total attenuation in attenuators only'`, namely `sum(atten)`. -/
noncomputable def total_atten_attenuators_only (x : List ℝ) : ℝ := (atten_report x).sum

/-- Source line 209: the figure printed as
`'Total attenuation in attenuators and coaxes'`, namely `sum(atten)`. -/
noncomputable def total_atten_attenuators_and_coaxes (x : List ℝ) : ℝ := (atten_report x).sum

/-- Modelled from the spec: the attenuator-only total of spec section 4.7 and
claim C9 — the sum of `GtodB` over the Stage entries of the solution vector
only.  Kept separate from the printed figure (line 208) for comparison. -/
noncomputable def sum_atten_stages_only_spec (x : List ℝ) : ℝ :=
  ((stage_indices options.Ts 0).map (fun i => GtodB (x.getD i 0))).sum

/-! ## Helper lemmas about the conversions -/

lemma dBtoG_pos (d : ℝ) : 0 < dBtoG d := Real.rpow_pos_of_pos (by norm_num) _

lemma dBtoG_zero : dBtoG 0 = 1 := by
  unfold dBtoG
  norm_num

lemma GtodB_dBtoG (d : ℝ) : GtodB (dBtoG d) = d := by
  unfold GtodB dBtoG
  rw [Real.logb_rpow (by norm_num) (by norm_num)]
  ring

lemma GtodB_one : GtodB 1 = 0 := by
  unfold GtodB
  simp

lemma dBmtoWatt_pos (d : ℝ) : 0 < dBmtoWatt d :=
  mul_pos (Real.rpow_pos_of_pos (by norm_num) _) (by norm_num)

/-! ## The constraint collections of the shipped configuration, written out -/

lemma const_explicit : const =
    [ ⟨CKind.ineq, CFun.dutFloor⟩,
      ⟨CKind.ineq, CFun.srcAttain⟩,
      ⟨CKind.ineq, CFun.attenCeil⟩,
      ⟨CKind.ineq, CFun.interStage 1e-5 3e-6 0 0⟩,
      ⟨CKind.ineq, CFun.interStage 3e-3 1e-5 1 1⟩,
      ⟨CKind.ineq, CFun.interStage 1e-1 3e-3 2 3⟩,
      ⟨CKind.eq, CFun.coaxPin coaxBeCuAtten 123 3⟩,
      ⟨CKind.ineq, CFun.interStage 10 1e-1 4 5⟩,
      ⟨CKind.eq, CFun.coaxPin coaxBeCuAtten 213 5⟩,
      ⟨CKind.eq, CFun.coaxPin coaxBeCuAtten 147 7⟩ ] := rfl

lemma const_ext_explicit : const_ext =
    [ ⟨CKind.eq, CFun.discr 0⟩,
      ⟨CKind.eq, CFun.discr 1⟩,
      ⟨CKind.eq, CFun.discr 2⟩,
      ⟨CKind.eq, CFun.discr 4⟩,
      ⟨CKind.eq, CFun.discr 6⟩ ] := rfl

lemma stage_indices_explicit : stage_indices options.Ts 0 = [0, 1, 2, 4, 6] := rfl

lemma g0_explicit : g0 =
    [0.5, 0.5, 0.5, dBtoG (coaxBeCuAtten * 123), 0.5,
     dBtoG (coaxBeCuAtten * 213), 0.5, dBtoG (coaxBeCuAtten * 147)] := rfl

lemma CPs_explicit : CPs = [3e-6, 1e-5, 3e-3, 1, 1e-1, 1, 10, 1, 1] := rfl

lemma bnds_explicit : bnds =
    [(1e-6, 0.9), (1e-6, 0.9), (1e-6, 0.9), (1e-6, 0.9),
     (1e-6, 0.9), (1e-6, 0.9), (1e-6, 0.9), (1e-6, 0.9)] := rfl

/-- Every equality constraint of the first pass (the three coax pins)
evaluates to zero at the initial guess `g0`. -/
lemma eq_consts_zero_at_g0 :
    ∀ c ∈ const, c.kind = CKind.eq → CFun.eval c.fn g0 = 0 := by
  rw [const_explicit]
  intro c hc hk
  fin_cases hc <;> simp_all [CFun.eval, g0_explicit]

/-! ## Claims -/

/-- C1 (code_bug evidence): the pass-1 inter-stage constraints are generated
with `k = i + j` where `j` enumerates `options['Ts'][i+1:]`, so `k` is one
less than the index of the next Stage.  For the adjacent stage pair
`(0, 1)` of the shipped configuration the constraint stored is
`interStage 1e-5 3e-6 0 0` — its `rmp` term reads `g[0]`, not `g[1]` — and
for the pair `(2, 4)` the stored `k` is `3`, a coax position.  At the trial
vector `g = [1/2, 3/4]` the stored constraint evaluates to `4e-6`, while the
formula of the claim, `rmp(coolingPower[1], g[1]) - mip(coolingPower[0], g[0])`,
evaluates to `24e-6`. -/
theorem C1_interstage_off_by_one :
    (⟨CKind.ineq, CFun.interStage 1e-5 3e-6 0 0⟩ : Constraint) ∈ const ∧
    (⟨CKind.ineq, CFun.interStage 1e-1 3e-3 2 3⟩ : Constraint) ∈ const ∧
    CFun.eval (CFun.interStage 1e-5 3e-6 0 0) [1/2, 3/4] = 4e-6 ∧
    rmp 1e-5 (([1/2, 3/4] : List ℝ).getD 1 0) - mip 3e-6 (([1/2, 3/4] : List ℝ).getD 0 0)
      = 24e-6 ∧
    CFun.eval (CFun.interStage 1e-5 3e-6 0 0) [1/2, 3/4] ≠
      rmp 1e-5 (([1/2, 3/4] : List ℝ).getD 1 0)
        - mip 3e-6 (([1/2, 3/4] : List ℝ).getD 0 0) := by
  refine ⟨?_, ?_, ?_, ?_, ?_⟩
  · rw [const_explicit]; simp
  · rw [const_explicit]; simp
  · norm_num [CFun.eval, rmp, mip]
  · norm_num [rmp, mip]
  · norm_num [CFun.eval, rmp, mip]

/-- C2 (code_bug evidence): the DUT-floor and source-attainability constraints
subtract the raw dBm number `options['DUT_power_max'] = -37` from a power in
watts instead of `dBmtoWatt(-37)`.  At the trial vector `[1/2]` the
DUT-floor constraint evaluates to `rmp(3e-6, 1/2) + 37`, and both constraint
values differ from the watt-converted expressions the claim states. -/
theorem C2_dut_power_max_not_in_watts :
    CFun.eval CFun.dutFloor [1/2] = rmp 3e-6 (1/2) + 37 ∧
    CFun.eval CFun.dutFloor [1/2] ≠ rmp 3e-6 (1/2) - dBmtoWatt (-37) ∧
    CFun.eval CFun.srcAttain [1/2] ≠
      dBmtoWatt 24 * ([1/2] : List ℝ).prod - dBmtoWatt (-37) := by
  have hw : 0 < dBmtoWatt (-37) := dBmtoWatt_pos (-37)
  refine ⟨?_, ?_, ?_⟩
  · norm_num [CFun.eval, CPs_explicit, options, rmp, mip]
  · have h : CFun.eval CFun.dutFloor [1/2] = rmp 3e-6 (1/2) + 37 := by
      norm_num [CFun.eval, CPs_explicit, options, rmp, mip]
    rw [h]
    intro hcontra
    linarith
  · show dBmtoWatt options.source_power * ([1/2] : List ℝ).prod - options.DUT_power_max ≠ _
    have h1 : options.source_power = 24 := rfl
    have h2 : options.DUT_power_max = -37 := rfl
    rw [h1, h2]
    intro hcontra
    linarith

/-- C3 counterexample: the loop of `electronTemperature` starts at `n = 0`,
so the DUT-end temperature also contributes a term `Ts[0]*g[0]` beyond the
seed `Ts[0]`.  At `Ts = [1, 2]`, `g = [1/2]` the source computes
`1 + 1*(1/2) + 2*(1/2) = 5/2`, while the formula of the claim gives
`1 + 2*(1/2) = 2`. -/
theorem C3_counterexample :
    electronTemperature [(1 : ℝ), 2] [(1/2 : ℝ)] = 5/2 ∧
    electronTemperature_spec [(1 : ℝ), 2] [(1/2 : ℝ)] = 2 ∧
    electronTemperature [(1 : ℝ), 2] [(1/2 : ℝ)] ≠
      electronTemperature_spec [(1 : ℝ), 2] [(1/2 : ℝ)] := by
  refine ⟨?_, ?_, ?_⟩
  · simp [electronTemperature, G_t, List.range_succ]
    norm_num
  · simp [electronTemperature_spec, List.range_succ]
    norm_num
  · have h1 : electronTemperature [(1 : ℝ), 2] [(1/2 : ℝ)] = 5/2 := by
      simp [electronTemperature, G_t, List.range_succ]
      norm_num
    have h2 : electronTemperature_spec [(1 : ℝ), 2] [(1/2 : ℝ)] = 2 := by
      simp [electronTemperature_spec, List.range_succ]
      norm_num
    rw [h1, h2]
    norm_num

/-- C4 counterexample: the cited construction (lines 86-93) performs no
validation whatsoever.  A chain with no Stage at all, a chain with no
terminal RoomTemp, and a chain whose coax has negative length and positive
per-mm loss are all accepted: `CPs`/`Ts` are built normally and the
constraint builder happily pins the malformed coax; no `ConfigurationError`
mechanism exists anywhere in the source. -/
theorem C4_counterexample :
    CPs_build [Pos.rt 300] = [1] ∧
    Ts_build [Pos.rt 300] = [300] ∧
    CPs_build [Pos.stage 22e-3 3e-6] = [3e-6] ∧
    CPs_build [Pos.stage 22e-3 3e-6, Pos.coax 2 (-5) 0.1, Pos.rt 300] = [3e-6, 1, 1] ∧
    loopConst [Pos.stage 22e-3 3e-6, Pos.coax 2 (-5) 0.1, Pos.rt 300] 0 =
      [⟨CKind.eq, CFun.coaxPin 0.1 (-5) 1⟩] :=
  ⟨rfl, rfl, rfl, rfl, rfl⟩

/-- C4 amended: construction never fails.  For every chain configuration —
malformed or not — the `CPs` and `Ts` arrays are built totally, one entry per
position (stages contribute their cooling power, every other position the
placeholder `1.`), so the run always proceeds to optimization. -/
theorem C4_amended_construction_is_total (cfg : List Pos) :
    (CPs_build cfg).length = cfg.length ∧ (Ts_build cfg).length = cfg.length := by
  constructor
  · induction cfg with
    | nil => rfl
    | cons p r ih => cases p <;> simpa [CPs_build] using ih
  · simp [Ts_build]

/-- C4 amended witness: the amended statement at the shipped configuration. -/
theorem C4_amended_witness :
    (CPs_build options.Ts).length = options.Ts.length ∧
    (Ts_build options.Ts).length = options.Ts.length :=
  C4_amended_construction_is_total options.Ts

/-- C6: the pass-1 constraint set contains, for each coax position
`i ∈ {3, 5, 7}` of the shipped configuration, the equality
`g[i] - dBtoG(atten*length) = 0` with that coax's own data captured by value,
and every `g` satisfying all the equality constraints of the set has
`GtodB(g[i])` equal to `atten*length` for each coax index. -/
theorem C6_coax_pinning :
    (⟨CKind.eq, CFun.coaxPin coaxBeCuAtten 123 3⟩ : Constraint) ∈ const ∧
    (⟨CKind.eq, CFun.coaxPin coaxBeCuAtten 213 5⟩ : Constraint) ∈ const ∧
    (⟨CKind.eq, CFun.coaxPin coaxBeCuAtten 147 7⟩ : Constraint) ∈ const ∧
    ∀ g : List ℝ, (∀ c ∈ const, c.kind = CKind.eq → CFun.eval c.fn g = 0) →
      GtodB (g.getD 3 0) = coaxBeCuAtten * 123 ∧
      GtodB (g.getD 5 0) = coaxBeCuAtten * 213 ∧
      GtodB (g.getD 7 0) = coaxBeCuAtten * 147 := by
  refine ⟨by rw [const_explicit]; simp, by rw [const_explicit]; simp,
    by rw [const_explicit]; simp, ?_⟩
  intro g hg
  have h3 := hg ⟨CKind.eq, CFun.coaxPin coaxBeCuAtten 123 3⟩ (by rw [const_explicit]; simp) rfl
  have h5 := hg ⟨CKind.eq, CFun.coaxPin coaxBeCuAtten 213 5⟩ (by rw [const_explicit]; simp) rfl
  have h7 := hg ⟨CKind.eq, CFun.coaxPin coaxBeCuAtten 147 7⟩ (by rw [const_explicit]; simp) rfl
  simp only [CFun.eval, sub_eq_zero] at h3 h5 h7
  rw [h3, h5, h7, GtodB_dBtoG, GtodB_dBtoG, GtodB_dBtoG]
  exact ⟨rfl, rfl, rfl⟩

/-- C6 witness: the initial guess `g0` satisfies all pass-1 equality
constraints, and the conclusion holds there for coax index 3. -/
theorem C6_witness : GtodB (g0.getD 3 0) = coaxBeCuAtten * 123 :=
  (C6_coax_pinning.2.2.2 g0 eq_consts_zero_at_g0).1

/-- C9 (code_bug evidence): lines 208 and 209 both print `sum(atten)` over
the whole solution vector, so the two printed "total attenuation" figures
are one and the same.  At the vector that has gain `dBtoG(-1)` at the coax
position 3 and gain 1 everywhere else, both printed figures are `-1` dB,
while the attenuator-only sum the claim describes is `0` dB. -/
theorem C9_totals_not_distinct :
    total_atten_attenuators_only [1, 1, 1, dBtoG (-1), 1, 1, 1, 1] = -1 ∧
    total_atten_attenuators_and_coaxes [1, 1, 1, dBtoG (-1), 1, 1, 1, 1] = -1 ∧
    sum_atten_stages_only_spec [1, 1, 1, dBtoG (-1), 1, 1, 1, 1] = 0 ∧
    total_atten_attenuators_only [1, 1, 1, dBtoG (-1), 1, 1, 1, 1] ≠
      sum_atten_stages_only_spec [1, 1, 1, dBtoG (-1), 1, 1, 1, 1] := by
  have h1 : total_atten_attenuators_only [1, 1, 1, dBtoG (-1), 1, 1, 1, 1] = -1 := by
    simp [total_atten_attenuators_only, atten_report, GtodB_one, GtodB_dBtoG]
  have h2 : sum_atten_stages_only_spec [1, 1, 1, dBtoG (-1), 1, 1, 1, 1] = 0 := by
    simp [sum_atten_stages_only_spec, stage_indices_explicit, GtodB_one]
  refine ⟨h1, h1, h2, ?_⟩
  rw [h1, h2]
  norm_num

/-- C10: every pass-1 equality constraint (exactly the coax-pinning
equalities) evaluates to zero at the initial guess `g0`, because `get_g0`
seeds each coax entry with exactly the pinned value
`dBtoG(atten * length)`. -/
theorem C10_g0_feasible_for_coax_equalities :
    ∀ c ∈ const, c.kind = CKind.eq → CFun.eval c.fn g0 = 0 :=
  eq_consts_zero_at_g0

/-- C10 witness: the coax-pinning constraint of position 3 at `g0`. -/
theorem C10_witness :
    CFun.eval (CFun.coaxPin coaxBeCuAtten 123 3) g0 = 0 :=
  C10_g0_feasible_for_coax_equalities ⟨CKind.eq, CFun.coaxPin coaxBeCuAtten 123 3⟩
    (by rw [const_explicit]; simp) rfl

/-! ## Closed forms for the objective -/

lemma foldl_add_map (f : ℕ → ℝ) : ∀ (l : List ℕ) (a : ℝ),
    l.foldl (fun acc n => acc + f n) a = a + (l.map f).sum
  | [], a => by simp
  | x :: xs, a => by
      rw [List.foldl_cons, foldl_add_map f xs, List.map_cons, List.sum_cons]
      ring

lemma foldl_mul_map (f : ℕ → ℝ) : ∀ (l : List ℕ) (a : ℝ),
    l.foldl (fun acc n => acc * f n) a = a * (l.map f).prod
  | [], a => by simp
  | x :: xs, a => by
      rw [List.foldl_cons, foldl_mul_map f xs, List.map_cons, List.prod_cons]
      ring

lemma electronTemperature_closed (Ts Gs : List ℝ) :
    electronTemperature Ts Gs =
      Ts.getD 0 0 + ((List.range Ts.length).map (fun n => Ts.getD n 0 * G_t Gs n)).sum :=
  foldl_add_map _ _ _

lemma G_t_closed (Gs : List ℝ) (n : ℕ) :
    G_t Gs n = Gs.getD 0 0 * ((List.range' 1 (n - 1)).map (fun i => Gs.getD i 0)).prod :=
  foldl_mul_map _ _ _

lemma G_t_eq_prod_range (Gs : List ℝ) (n : ℕ) (hn : 1 ≤ n) :
    G_t Gs n = ((List.range n).map (fun i => Gs.getD i 0)).prod := by
  obtain ⟨m, rfl⟩ : ∃ m, n = m + 1 := ⟨n - 1, (Nat.succ_pred_eq_of_pos hn).symm⟩
  rw [G_t_closed, List.range_eq_range', List.range'_succ 0 m 1, List.map_cons, List.prod_cons,
    Nat.add_sub_cancel]

/-- C3 amended: for every temperature vector of length `m ≥ 2` and
attenuation vector of length `m - 1`, the source's `electronTemperature`
equals the claimed expression `Ts[0] + Σ_{1 ≤ n < m} Ts[n]*(g[0]*...*g[n-1])`
plus one extra term `Ts[0]*g[0]`, contributed by the loop iteration `n = 0`. -/
theorem C3_amended_extra_term (Ts Gs : List ℝ)
    (hm : Ts.length = Gs.length + 1) (hg : 1 ≤ Gs.length) :
    electronTemperature Ts Gs =
      electronTemperature_spec Ts Gs + Ts.getD 0 0 * Gs.getD 0 0 := by
  obtain ⟨m, hm2⟩ : ∃ m, Ts.length = m + 1 := ⟨Gs.length, hm⟩
  rw [electronTemperature_closed, electronTemperature_spec, hm2,
    List.range_eq_range', List.range'_succ 0 m 1, List.map_cons, List.sum_cons,
    Nat.add_sub_cancel]
  have hG0 : G_t Gs 0 = Gs.getD 0 0 := by
    simp [G_t]
  have hcongr : (List.range' 1 m).map (fun n => Ts.getD n 0 * G_t Gs n) =
      (List.range' 1 m).map
        (fun n => Ts.getD n 0 * ((List.range n).map (fun i => Gs.getD i 0)).prod) := by
    refine List.map_congr_left ?_
    intro n hn
    rw [G_t_eq_prod_range Gs n (List.mem_range'_1.mp hn).1]
  rw [hG0, hcongr]
  ring

/-- C3 amended witness: at `Ts = [1, 2]`, `g = [1/2]` the identity reads
`5/2 = 2 + 1*(1/2)`. -/
theorem C3_amended_witness :
    electronTemperature [(1 : ℝ), 2] [(1/2 : ℝ)] =
      electronTemperature_spec [(1 : ℝ), 2] [(1/2 : ℝ)] +
        ([(1 : ℝ), 2].getD 0 0) * ([(1/2 : ℝ)].getD 0 0) :=
  C3_amended_extra_term [(1 : ℝ), 2] [(1/2 : ℝ)] (by simp) (by simp)

/-! ## Monotonicity of the objective -/

lemma getD_nonneg (l : List ℝ) (h : ∀ x ∈ l, 0 ≤ x) (i : ℕ) : 0 ≤ l.getD i 0 := by
  by_cases hi : i < l.length
  · rw [List.getD_eq_getElem l 0 hi]
    exact h _ (List.getElem_mem hi)
  · rw [List.getD_eq_default l 0 (by omega)]

lemma getD_le_getD_set (Gs : List ℝ) (p : ℕ) (v : ℝ) (hv : Gs.getD p 0 ≤ v) :
    ∀ i, Gs.getD i 0 ≤ (Gs.set p v).getD i 0 := by
  induction Gs generalizing p with
  | nil => intro i; simp
  | cons a r ih =>
      intro i
      cases p with
      | zero =>
          cases i with
          | zero => simpa using hv
          | succ j => simp
      | succ q =>
          cases i with
          | zero => simp
          | succ j =>
              have := ih q (by simpa using hv) j
              simpa using this

lemma prod_map_le_prod_map (f g : ℕ → ℝ) : ∀ (l : List ℕ),
    (∀ i ∈ l, 0 ≤ f i ∧ f i ≤ g i) →
    0 ≤ (l.map f).prod ∧ (l.map f).prod ≤ (l.map g).prod
  | [], _ => by simp
  | x :: xs, h => by
      obtain ⟨hfx, hfg⟩ := h x (List.mem_cons_self x xs)
      obtain ⟨ihp, ihle⟩ :=
        prod_map_le_prod_map f g xs (fun i hi => h i (List.mem_cons_of_mem x hi))
      rw [List.map_cons, List.map_cons, List.prod_cons, List.prod_cons]
      exact ⟨mul_nonneg hfx ihp, mul_le_mul hfg ihle ihp (le_trans hfx hfg)⟩

lemma G_t_nonneg (Gs : List ℝ) (h : ∀ i, 0 ≤ Gs.getD i 0) (n : ℕ) : 0 ≤ G_t Gs n := by
  rw [G_t_closed]
  refine mul_nonneg (h 0) (List.prod_nonneg ?_)
  intro x hx
  obtain ⟨i, _, rfl⟩ := List.mem_map.mp hx
  exact h i

lemma G_t_mono_set (Gs : List ℝ) (p : ℕ) (v : ℝ)
    (hnn : ∀ i, 0 ≤ Gs.getD i 0) (hv : Gs.getD p 0 ≤ v) (n : ℕ) :
    G_t Gs n ≤ G_t (Gs.set p v) n := by
  rw [G_t_closed, G_t_closed]
  have hpt := getD_le_getD_set Gs p v hv
  obtain ⟨h1, h2⟩ :=
    prod_map_le_prod_map (fun i => Gs.getD i 0) (fun i => (Gs.set p v).getD i 0)
      (List.range' 1 (n - 1)) (fun i _ => ⟨hnn i, hpt i⟩)
  exact mul_le_mul (hpt 0) h2 h1 (le_trans (hnn 0) (hpt 0))

/-- C5: for every temperature vector with nonnegative entries and every
attenuation vector with all components in `(0,1)`, the electron temperature
is at least `Ts[0]`, and raising any single component `g[p]` with `p > 0`
(to a value `v` still below 1) never decreases the electron temperature. -/
theorem C5_lower_bound_and_monotone (Ts Gs : List ℝ)
    (hTs : ∀ t ∈ Ts, 0 ≤ t) (hGs : ∀ x ∈ Gs, 0 < x ∧ x < 1)
    (p : ℕ) (hp : 0 < p) (v : ℝ) (hv : Gs.getD p 0 ≤ v) (hv1 : v < 1) :
    Ts.getD 0 0 ≤ electronTemperature Ts Gs ∧
    electronTemperature Ts Gs ≤ electronTemperature Ts (Gs.set p v) := by
  have hTnn : ∀ i, 0 ≤ Ts.getD i 0 := getD_nonneg Ts hTs
  have hGnn : ∀ i, 0 ≤ Gs.getD i 0 := getD_nonneg Gs (fun x hx => le_of_lt (hGs x hx).1)
  constructor
  · rw [electronTemperature_closed]
    have hs : 0 ≤ ((List.range Ts.length).map (fun n => Ts.getD n 0 * G_t Gs n)).sum := by
      refine List.sum_nonneg ?_
      intro x hx
      obtain ⟨n, _, rfl⟩ := List.mem_map.mp hx
      exact mul_nonneg (hTnn n) (G_t_nonneg Gs hGnn n)
    linarith
  · rw [electronTemperature_closed, electronTemperature_closed]
    have hlen : (Gs.set p v).length = Gs.length := List.length_set Gs p v
    refine add_le_add_left (List.sum_le_sum ?_) _
    intro n _
    exact mul_le_mul_of_nonneg_left (G_t_mono_set Gs p v hGnn hv n) (hTnn n)

/-- C5 witness: `Ts = [1, 2, 3]`, `g = [1/2, 1/3]`, raising `g[1]` from
`1/3` to `1/2`. -/
theorem C5_witness :
    ([(1 : ℝ), 2, 3].getD 0 0 ≤ electronTemperature [(1 : ℝ), 2, 3] [(1/2 : ℝ), 1/3]) ∧
    electronTemperature [(1 : ℝ), 2, 3] [(1/2 : ℝ), 1/3] ≤
      electronTemperature [(1 : ℝ), 2, 3] ([(1/2 : ℝ), 1/3].set 1 (1/2)) :=
  C5_lower_bound_and_monotone [(1 : ℝ), 2, 3] [(1/2 : ℝ), 1/3]
    (by intro t ht; simp only [List.mem_cons, List.not_mem_nil, or_false] at ht
        rcases ht with h | h | h <;> norm_num [h])
    (by intro x hx; simp only [List.mem_cons, List.not_mem_nil, or_false] at hx
        rcases hx with h | h <;> norm_num [h])
    1 (by norm_num) (1/2) (by norm_num) (by norm_num)

/-! ## Properties of the list minimum and the discretization constraint -/

lemma minl_mem : ∀ (l : List ℝ), l ≠ [] → minl l ∈ l
  | [], h => absurd rfl h
  | [a], _ => by simp [minl]
  | a :: b :: r, _ => by
      have h3 : minl (a :: b :: r) = min a (minl (b :: r)) := rfl
      rcases min_choice a (minl (b :: r)) with h | h
      · rw [h3, h]
        exact List.mem_cons_self a (b :: r)
      · rw [h3, h]
        exact List.mem_cons_of_mem a (minl_mem (b :: r) (by simp))

lemma minl_le : ∀ (l : List ℝ) (y : ℝ), y ∈ l → minl l ≤ y
  | [], y, hy => absurd hy (List.not_mem_nil y)
  | [a], y, hy => by
      have h : y = a := by simpa using hy
      simp [minl, h]
  | a :: b :: r, y, hy => by
      have h3 : minl (a :: b :: r) = min a (minl (b :: r)) := rfl
      rcases List.mem_cons.mp hy with h | h
      · rw [h3, h]
        exact min_le_left _ _
      · rw [h3]
        exact le_trans (min_le_right _ _) (minl_le (b :: r) y h)

lemma minl_nonneg : ∀ (l : List ℝ), (∀ y ∈ l, 0 ≤ y) → 0 ≤ minl l
  | [], _ => le_refl 0
  | [a], h => by simpa [minl] using h a (by simp)
  | a :: b :: r, h => by
      have h3 : minl (a :: b :: r) = min a (minl (b :: r)) := rfl
      rw [h3, le_min_iff]
      exact ⟨h a (by simp),
        minl_nonneg (b :: r) (fun y hy => h y (List.mem_cons_of_mem a hy))⟩

lemma minl_eq_zero_iff (l : List ℝ) (hne : l ≠ []) (h : ∀ y ∈ l, 0 ≤ y) :
    minl l = 0 ↔ (0 : ℝ) ∈ l := by
  constructor
  · intro h0
    rw [← h0]
    exact minl_mem l hne
  · intro h0
    exact le_antisymm (minl_le l 0 h0) (minl_nonneg l h)

lemma discrMin_nonneg (x : ℝ) : 0 ≤ discrMin x := by
  refine minl_nonneg _ ?_
  intro y hy
  obtain ⟨c, _, rfl⟩ := List.mem_map.mp hy
  exact abs_nonneg _

lemma discrMin_eq_zero_iff (x : ℝ) :
    discrMin x = 0 ↔ ∃ c ∈ options.Gs, x = dBtoG c := by
  unfold discrMin
  rw [minl_eq_zero_iff _ (by simp [options])
    (by intro y hy; obtain ⟨c, _, rfl⟩ := List.mem_map.mp hy; exact abs_nonneg _)]
  rw [List.mem_map]
  constructor
  · rintro ⟨c, hc, hc0⟩
    have h := abs_eq_zero.mp hc0
    exact ⟨c, hc, by linarith⟩
  · rintro ⟨c, hc, rfl⟩
    exact ⟨c, hc, by simp⟩

lemma discrMin_at_catalog (c : ℝ) (hc : c ∈ options.Gs) : discrMin (dBtoG c) = 0 :=
  (discrMin_eq_zero_iff _).mpr ⟨c, hc, rfl⟩

/-- C7: the discretization constraint body is nonnegative everywhere, it
vanishes exactly on the catalog gains `dBtoG c`, and any `g` that satisfies
every second-pass discretization equality has `GtodB(g[i])` in the catalog
for every Stage index `i`. -/
theorem C7_discretization_on_catalog :
    (∀ x : ℝ, 0 ≤ discrMin x) ∧
    (∀ x : ℝ, (discrMin x = 0 ↔ ∃ c ∈ options.Gs, x = dBtoG c)) ∧
    (∀ g : List ℝ, (∀ c ∈ const_ext, CFun.eval c.fn g = 0) →
      ∀ i ∈ stage_indices options.Ts 0, GtodB (g.getD i 0) ∈ options.Gs) := by
  refine ⟨discrMin_nonneg, discrMin_eq_zero_iff, ?_⟩
  intro g hg i hi
  have hmem : (⟨CKind.eq, CFun.discr i⟩ : Constraint) ∈ const_ext := by
    rw [const_ext_explicit]
    rw [stage_indices_explicit] at hi
    fin_cases hi <;> simp
  have h0 : discrMin (g.getD i 0) = 0 := hg _ hmem
  obtain ⟨c, hc, hx⟩ := (discrMin_eq_zero_iff _).mp h0
  rw [hx, GtodB_dBtoG]
  exact hc

/-- C7 witness: the vector whose entries all sit on the catalog value `0` dB
satisfies every discretization equality, and its Stage entry 0 indeed maps
back into the catalog. -/
theorem C7_witness :
    GtodB (([dBtoG 0, dBtoG 0, dBtoG 0, dBtoG 0,
             dBtoG 0, dBtoG 0, dBtoG 0, dBtoG 0] : List ℝ).getD 0 0) ∈ options.Gs := by
  refine C7_discretization_on_catalog.2.2 _ ?_ 0 (by rw [stage_indices_explicit]; simp)
  intro c hc
  have h0Gs : (0 : ℝ) ∈ options.Gs := by simp [options]
  rw [const_ext_explicit] at hc
  fin_cases hc <;> simpa [CFun.eval] using discrMin_at_catalog 0 h0Gs

/-! ## C8: the box bounds keep every evaluation inside its numeric domain -/

/-- C8: for every trial vector inside the box bounds `bnds` (all components
in `[1e-6, 0.9]`), each denominator `1 - g[i]` of `mip`/`rmp` is at least
`1/10` (so the division is by a nonzero number and no `g ≥ 1` reaches the
power-budget model), and the product of the components handed to the
log-based `GtodB` is strictly positive. -/
theorem C8_bounds_protect_domains (g : List ℝ) (hlen : g.length = bnds.length)
    (hb : ∀ i, i < g.length →
      (bnds.getD i (0, 0)).1 ≤ g.getD i 0 ∧ g.getD i 0 ≤ (bnds.getD i (0, 0)).2) :
    (∀ i, i < g.length → 1/10 ≤ 1 - g.getD i 0) ∧
    (∀ cp : ℝ, ∀ i, i < g.length → mip cp (g.getD i 0) * (1 - g.getD i 0) = cp) ∧
    0 < g.prod := by
  have hlen8 : g.length = 8 := by rw [hlen, bnds_explicit]; rfl
  have hup : ∀ i, i < g.length → g.getD i 0 ≤ 0.9 := by
    intro i hi
    have h := (hb i hi).2
    rw [hlen8] at hi
    interval_cases i <;> simpa [bnds_explicit] using h
  have hlo : ∀ i, i < g.length → (1e-6 : ℝ) ≤ g.getD i 0 := by
    intro i hi
    have h := (hb i hi).1
    rw [hlen8] at hi
    interval_cases i <;> simpa [bnds_explicit] using h
  have hub : ∀ i, i < g.length → 1/10 ≤ 1 - g.getD i 0 := by
    intro i hi
    have h := hup i hi
    norm_num at h ⊢
    linarith
  refine ⟨hub, ?_, ?_⟩
  · intro cp i hi
    have h := hub i hi
    have hne : 1 - g.getD i 0 ≠ 0 := by
      intro h0
      rw [h0] at h
      norm_num at h
    unfold mip
    exact div_mul_cancel₀ cp hne
  · refine List.prod_pos ?_
    intro a ha
    obtain ⟨i, hi, rfl⟩ := List.mem_iff_getElem.mp ha
    have h := hlo i hi
    rw [List.getD_eq_getElem g 0 hi] at h
    have : (0 : ℝ) < 1e-6 := by norm_num
    linarith

/-- C8 witness: the vector of eight components `1/2` lies inside the bounds
and all three conclusions hold there. -/
theorem C8_witness :
    (∀ i, i < ([1/2, 1/2, 1/2, 1/2, 1/2, 1/2, 1/2, 1/2] : List ℝ).length →
      1/10 ≤ 1 - ([1/2, 1/2, 1/2, 1/2, 1/2, 1/2, 1/2, 1/2] : List ℝ).getD i 0) ∧
    (∀ cp : ℝ, ∀ i, i < ([1/2, 1/2, 1/2, 1/2, 1/2, 1/2, 1/2, 1/2] : List ℝ).length →
      mip cp (([1/2, 1/2, 1/2, 1/2, 1/2, 1/2, 1/2, 1/2] : List ℝ).getD i 0) *
        (1 - ([1/2, 1/2, 1/2, 1/2, 1/2, 1/2, 1/2, 1/2] : List ℝ).getD i 0) = cp) ∧
    0 < ([1/2, 1/2, 1/2, 1/2, 1/2, 1/2, 1/2, 1/2] : List ℝ).prod :=
  C8_bounds_protect_domains [1/2, 1/2, 1/2, 1/2, 1/2, 1/2, 1/2, 1/2] rfl
    (by
      intro i hi
      simp only [List.length_cons, List.length_nil] at hi
      interval_cases i <;> norm_num [bnds_explicit])

end CalcAttenuation
